import Mathlib

/-!
Verification of the GitHub PR timeline normalization engine.

A shallow embedding of `src/github/utils.ts`: event-type classification,
comment/author normalization, timeline normalization, reviewer-state
reconciliation, commit regrouping, and mergeability parsing, together with
theorems settling the specification claims.

JS conventions are modelled explicitly: optional/nullable fields become
`Option`, JS falsiness of numbers/strings is spelled out where the source
relies on it, and the one place the source can throw (a non-null assertion)
is modelled with `Option`.
-/

namespace PRUtils

/-- Canonical account record (`IAccount`). Only the fields this module reads
or writes are modelled: `parseAuthor` copies `login`, `url`, `avatarUrl`,
`email`. -/
structure IAccount where
  login : String
  url : String
  avatarUrl : Option String
  email : Option String
deriving DecidableEq, Repr

/-- Function `parseAuthor` (utils.ts:519): copies the four fields of a present author;
an absent author becomes the ghost sentinel `{login: '', url: ''}`. -/
def parseAuthor : Option IAccount → IAccount
  | some author =>
    { login := author.login
      url := author.url
      avatarUrl := author.avatarUrl
      email := author.email }
  | none =>
    { login := ""
      url := ""
      avatarUrl := none
      email := none }

namespace Common

/-- The canonical event-kind enumeration (`Common.EventType`, from
`common/timelineEvent`); members are those referenced by utils.ts. -/
inductive EventType where
  | Committed
  | Labeled
  | Milestoned
  | Assigned
  | HeadRefDeleted
  | Commented
  | Reviewed
  | Merged
  | Other
  | NewCommitsSinceReview
deriving DecidableEq, Repr

end Common

/-- Function `convertGraphQLEventType` (utils.ts:387): a switch over the raw
discriminator string; every unknown string falls through to `Other`. -/
def convertGraphQLEventType (text : String) : Common.EventType :=
  if text = "PullRequestCommit" then Common.EventType.Committed
  else if text = "LabeledEvent" then Common.EventType.Labeled
  else if text = "MilestonedEvent" then Common.EventType.Milestoned
  else if text = "AssignedEvent" then Common.EventType.Assigned
  else if text = "HeadRefDeletedEvent" then Common.EventType.HeadRefDeleted
  else if text = "IssueComment" then Common.EventType.Commented
  else if text = "PullRequestReview" then Common.EventType.Reviewed
  else if text = "MergedEvent" then Common.EventType.Merged
  else Common.EventType.Other

/-- The discriminator strings with a dedicated case in
`convertGraphQLEventType`. -/
def knownDiscriminators : List String :=
  ["PullRequestCommit", "LabeledEvent", "MilestonedEvent", "AssignedEvent",
   "HeadRefDeletedEvent", "IssueComment", "PullRequestReview", "MergedEvent"]

/-- Change kind of one diff line (context / added / removed, §4.2). -/
inductive DiffChangeType where
  | Context
  | Add
  | Delete
deriving DecidableEq, Repr

/-- One changed line of a diff hunk, with its old/new line numbers. -/
structure DiffLine where
  type : DiffChangeType
  oldLineNumber : Int
  newLineNumber : Int
  text : String
deriving DecidableEq, Repr

/-- One hunk descriptor: old-file start/length, new-file start/length, lines. -/
structure DiffHunk where
  oldLineNumber : Int
  oldLength : Int
  newLineNumber : Int
  newLength : Int
  diffLines : List DiffLine
deriving DecidableEq, Repr

/-- Parse one side of a hunk range, `"12,3"` or `"12"` (length defaults to 1). -/
def parseRangePart (s : String) : Option (Int × Int) :=
  match s.splitOn "," with
  | [a] => a.toInt?.map (fun n => (n, 1))
  | [a, b] =>
    match a.toInt?, b.toInt? with
    | some n, some m => some (n, m)
    | _, _ => none
  | _ => none

/-- Recognize a hunk header line `@@ -a,b +c,d @@ ...`; a line not matching
the pattern yields `none` (and is skipped by the parser). -/
def parseHunkHeader (line : String) : Option (Int × Int × Int × Int) :=
  match line.splitOn " " with
  | "@@" :: old :: new :: "@@" :: _ =>
    if old.startsWith "-" && new.startsWith "+" then
      match parseRangePart (old.drop 1), parseRangePart (new.drop 1) with
      | some (a, b), some (c, d) => some (a, b, c, d)
      | _, _ => none
    else none
  | _ => none

/-- Classify one hunk body line by its first character and advance the running
old/new line counters. -/
def classifyDiffLine (oldLn newLn : Int) (text : String) :
    DiffLine × Int × Int :=
  if text.startsWith "+" then
    ({ type := DiffChangeType.Add, oldLineNumber := -1,
       newLineNumber := newLn, text := text }, oldLn, newLn + 1)
  else if text.startsWith "-" then
    ({ type := DiffChangeType.Delete, oldLineNumber := oldLn,
       newLineNumber := -1, text := text }, oldLn + 1, newLn)
  else
    ({ type := DiffChangeType.Context, oldLineNumber := oldLn,
       newLineNumber := newLn, text := text }, oldLn + 1, newLn + 1)

/-- One step of the hunk parser: a header line starts a fresh hunk (finishing
the current one); any other line extends the current hunk, or is skipped when
no hunk is open. -/
def diffStep (acc : List DiffHunk × Option (DiffHunk × Int × Int))
    (line : String) : List DiffHunk × Option (DiffHunk × Int × Int) :=
  match parseHunkHeader line with
  | some (a, b, c, d) =>
    let finished := match acc.2 with
      | some (h, _, _) => acc.1 ++ [h]
      | none => acc.1
    (finished,
     some ({ oldLineNumber := a, oldLength := b, newLineNumber := c,
             newLength := d, diffLines := [] }, a, c))
  | none =>
    match acc.2 with
    | none => acc
    | some (h, oldLn, newLn) =>
      let step := classifyDiffLine oldLn newLn line
      (acc.1, some ({ h with diffLines := h.diffLines ++ [step.1] },
                    step.2.1, step.2.2))

/-- Modelled from the spec: the Diff-Hunk Parser (§4.2) lives in
`common/diffHunk.ts`, which is not among the provided sources. Per the spec it
turns raw hunk text into a finite sequence of hunk descriptors, tolerates
empty input (zero hunks) and multiple `@@ ... @@` headers, and skips header
lines not matching the pattern rather than raising. -/
def parseDiffHunk (text : String) : List DiffHunk :=
  let res := (text.splitOn "\n").foldl diffStep ([], none)
  match res.2 with
  | some (h, _, _) => res.1 ++ [h]
  | none => res.1

/-- GraphQL `ReactionContent`: the reaction-kind enumeration of the typed
upstream API (the keys of `getReactionGroup`, utils.ts:844). -/
inductive ReactionContent where
  | THUMBS_UP
  | THUMBS_DOWN
  | LAUGH
  | HOORAY
  | CONFUSED
  | HEART
  | ROCKET
  | EYES
deriving DecidableEq, Repr

/-- Raw reaction group (`GraphQL.ReactionGroup`): content kind, user count
(`users.totalCount`), and whether the viewer reacted. -/
structure ReactionGroup where
  content : ReactionContent
  usersTotalCount : Nat
  viewerHasReacted : Bool
deriving DecidableEq, Repr

/-- Canonical reaction record; icons are editor resource handles and are out
of scope. -/
structure Reaction where
  label : String
  count : Nat
  viewerHasReacted : Bool
deriving DecidableEq, Repr

/-- The content → emoji-label table built by `parseGraphQLReaction` from
`getReactionGroup` (utils.ts:844). -/
def reactionLabel : ReactionContent → String
  | ReactionContent.THUMBS_UP => "👍"
  | ReactionContent.THUMBS_DOWN => "👎"
  | ReactionContent.LAUGH => "😄"
  | ReactionContent.HOORAY => "🎉"
  | ReactionContent.CONFUSED => "😕"
  | ReactionContent.HEART => "❤️"
  | ReactionContent.ROCKET => "🚀"
  | ReactionContent.EYES => "👀"

/-- Function `parseGraphQLReaction` (utils.ts:479): keep groups with a positive user
count and map each to a canonical reaction with the table label. -/
def parseGraphQLReaction (reactionGroups : List ReactionGroup) : List Reaction :=
  (reactionGroups.filter (fun g => 0 < g.usersTotalCount)).map
    (fun g =>
      { label := reactionLabel g.content
        count := g.usersTotalCount
        viewerHasReacted := g.viewerHasReacted })

namespace GraphQL

/-- A nested object carrying only a numeric `databaseId`. -/
structure DatabaseIdRef where
  databaseId : Int
deriving DecidableEq, Repr

/-- A nested object carrying only a commit `oid`. -/
structure OidRef where
  oid : String
deriving DecidableEq, Repr

/-- Raw graph-API review comment (`GraphQL.ReviewComment`): the fields read
by `parseGraphQLComment`. -/
structure ReviewComment where
  id : String
  databaseId : Int
  url : String
  body : String
  bodyHTML : String
  path : String
  viewerCanDelete : Bool
  pullRequestReview : Option DatabaseIdRef
  diffHunk : String
  position : Option Int
  commit : OidRef
  originalPosition : Option Int
  originalCommit : Option OidRef
  author : Option IAccount
  createdAt : String
  state : String
  replyTo : Option DatabaseIdRef
  reactionGroups : List ReactionGroup
deriving DecidableEq, Repr

end GraphQL

/-- Canonical comment record (`IComment`, from `common/comment`), restricted
to the fields `parseGraphQLComment` writes. `user` is an `Option` because the
source assigns `undefined` when the raw author is absent
(`comment.author ? parseAuthor(comment.author) : undefined`). -/
structure IComment where
  id : Int
  url : String
  body : String
  bodyHTML : String
  path : String
  canEdit : Bool
  canDelete : Bool
  pullRequestReviewId : Option Int
  diffHunk : String
  position : Option Int
  commitId : String
  originalPosition : Option Int
  originalCommitId : Option String
  user : Option IAccount
  createdAt : String
  htmlUrl : String
  graphNodeId : String
  isDraft : Bool
  inReplyToId : Option Int
  reactions : List Reaction
  isResolved : Bool
  diffHunks : List DiffHunk
deriving DecidableEq, Repr

/-- Function `parseGraphQLComment` (utils.ts:432): normalize one raw review comment;
`isResolved` is inherited from the owning thread; `diffHunks` is re-derived
from the raw `diffHunk` text (via `parseCommentDiffHunk`, utils.ts:373). -/
def parseGraphQLComment (comment : GraphQL.ReviewComment) (isResolved : Bool) :
    IComment :=
  { id := comment.databaseId
    url := comment.url
    body := comment.body
    bodyHTML := comment.bodyHTML
    path := comment.path
    canEdit := comment.viewerCanDelete
    canDelete := comment.viewerCanDelete
    pullRequestReviewId := comment.pullRequestReview.map (fun r => r.databaseId)
    diffHunk := comment.diffHunk
    position := comment.position
    commitId := comment.commit.oid
    originalPosition := comment.originalPosition
    originalCommitId := comment.originalCommit.map (fun r => r.oid)
    user :=
      match comment.author with
      | some author => some (parseAuthor (some author))
      | none => none
    createdAt := comment.createdAt
    htmlUrl := comment.url
    graphNodeId := comment.id
    isDraft := comment.state == "PENDING"
    inReplyToId := comment.replyTo.map (fun r => r.databaseId)
    reactions := parseGraphQLReaction comment.reactionGroups
    isResolved := isResolved
    diffHunks := parseDiffHunk comment.diffHunk }

/-- A concrete raw review comment whose author is absent. -/
def ghostRawComment : GraphQL.ReviewComment :=
  { id := "RC_1"
    databaseId := 7
    url := "https://example.test/c/7"
    body := "b"
    bodyHTML := "<p>b</p>"
    path := "file.ts"
    viewerCanDelete := false
    pullRequestReview := none
    diffHunk := ""
    position := none
    commit := { oid := "abc123" }
    originalPosition := none
    originalCommit := none
    author := none
    createdAt := "2024-01-01T00:00:00Z"
    state := "SUBMITTED"
    replyTo := none
    reactionGroups := [] }

namespace Common

/-- Canonical `Commented` payload (`Common.CommentEvent`), fields as written
by `parseGraphQLTimelineEvents` (utils.ts:727). -/
structure CommentEvent where
  htmlUrl : String
  body : String
  bodyHTML : String
  user : IAccount
  canEdit : Bool
  canDelete : Bool
  id : Int
  graphNodeId : String
  createdAt : String
deriving DecidableEq, Repr

/-- Canonical `Reviewed` payload (`Common.ReviewEvent`). -/
structure ReviewEvent where
  comments : List IComment
  submittedAt : String
  body : String
  bodyHTML : String
  htmlUrl : String
  user : IAccount
  authorAssociation : String
  state : String
  id : Int
deriving DecidableEq, Repr

/-- Canonical `Committed` payload (`Common.CommitEvent`); `authoredDate`
keeps the raw date string wrapped by `new Date(...)` in the source. -/
structure CommitEvent where
  id : String
  sha : String
  author : IAccount
  htmlUrl : String
  message : String
  authoredDate : String
deriving DecidableEq, Repr

/-- Canonical `Merged` payload. -/
structure MergedEvent where
  id : String
  user : IAccount
  createdAt : String
  mergeRef : String
  sha : String
  commitUrl : String
  url : String
  graphNodeId : String
deriving DecidableEq, Repr

/-- Canonical `Assigned` payload. -/
structure AssignedEvent where
  id : String
  user : IAccount
  actor : IAccount
deriving DecidableEq, Repr

/-- Canonical `HeadRefDeleted` payload. -/
structure HeadRefDeletedEvent where
  id : String
  actor : IAccount
  createdAt : String
  headRef : String
deriving DecidableEq, Repr

/-- Canonical timeline event (`Common.TimelineEvent`): a tagged union over
the kinds produced by normalization, plus the synthetic
`NewCommitsSinceReview` marker inserted only by the commit-regrouping pass. -/
inductive TimelineEvent where
  | commented (e : CommentEvent)
  | reviewed (e : ReviewEvent)
  | committed (e : CommitEvent)
  | merged (e : MergedEvent)
  | assigned (e : AssignedEvent)
  | headRefDeleted (e : HeadRefDeletedEvent)
  | newCommitsSinceReview (id : String)
deriving DecidableEq, Repr

/-- The `event` discriminator carried by every canonical timeline record. -/
def TimelineEvent.event : TimelineEvent → EventType
  | .commented _ => EventType.Commented
  | .reviewed _ => EventType.Reviewed
  | .committed _ => EventType.Committed
  | .merged _ => EventType.Merged
  | .assigned _ => EventType.Assigned
  | .headRefDeleted _ => EventType.HeadRefDeleted
  | .newCommitsSinceReview _ => EventType.NewCommitsSinceReview

end Common

namespace GraphQL

/-- Raw graph-API issue comment (timeline shape). -/
structure IssueComment where
  id : String
  databaseId : Int
  url : String
  body : String
  bodyHTML : String
  author : Option IAccount
  viewerCanUpdate : Bool
  viewerCanDelete : Bool
  createdAt : String
deriving DecidableEq, Repr

/-- Raw graph-API review (timeline shape). -/
structure Review where
  submittedAt : String
  body : String
  bodyHTML : String
  url : String
  author : Option IAccount
  authorAssociation : String
  state : String
  databaseId : Int
deriving DecidableEq, Repr

/-- Raw git actor on a commit (`commit.author`): an optional linked user
account plus plain name/avatar/email fallbacks. -/
structure GitActor where
  user : Option IAccount
  name : String
  avatarUrl : Option String
  email : Option String
deriving DecidableEq, Repr

/-- Raw nested commit object. -/
structure CommitInner where
  oid : String
  author : GitActor
  message : String
  authoredDate : String
deriving DecidableEq, Repr

/-- Raw graph-API commit timeline item (`PullRequestCommit`). -/
structure Commit where
  id : String
  commit : CommitInner
  url : String
deriving DecidableEq, Repr

/-- A nested ref carrying only a `name`. -/
structure NameRef where
  name : String
deriving DecidableEq, Repr

/-- Nested commit reference of a merged event (`oid` and `commitUrl`). -/
structure MergeCommitRef where
  oid : String
  commitUrl : String
deriving DecidableEq, Repr

/-- Raw graph-API merged event. -/
structure MergedEvent where
  id : String
  actor : Option IAccount
  createdAt : String
  mergeRef : NameRef
  commit : MergeCommitRef
  url : String
deriving DecidableEq, Repr

/-- Raw graph-API assigned event. -/
structure AssignedEvent where
  id : String
  user : Option IAccount
  actor : Option IAccount
deriving DecidableEq, Repr

/-- Raw graph-API head-ref-deleted event. -/
structure HeadRefDeletedEvent where
  id : String
  actor : Option IAccount
  createdAt : String
  headRefName : String
deriving DecidableEq, Repr

/-- One raw timeline item: the input union of `parseGraphQLTimelineEvents`.
The six typed shapes carry the `__typename` fixed by their GraphQL type;
`other` models an item whose `__typename` is outside the six handled shapes
(e.g. `LabeledEvent`, `MilestonedEvent`, or an unknown future typename),
which carries no fields the normalizer would read. -/
inductive TimelineItem where
  | mergedEvent (e : MergedEvent)
  | review (e : Review)
  | issueComment (e : IssueComment)
  | commit (e : Commit)
  | assignedEvent (e : AssignedEvent)
  | headRefDeletedEvent (e : HeadRefDeletedEvent)
  | other (typename : String)
deriving DecidableEq, Repr

/-- The `__typename` discriminator of a raw timeline item. -/
def TimelineItem.typename : TimelineItem → String
  | .mergedEvent _ => "MergedEvent"
  | .review _ => "PullRequestReview"
  | .issueComment _ => "IssueComment"
  | .commit _ => "PullRequestCommit"
  | .assignedEvent _ => "AssignedEvent"
  | .headRefDeletedEvent _ => "HeadRefDeletedEvent"
  | .other t => t

/-- Whether a raw item is one of the six shapes the normalizer's switch
handles. -/
def TimelineItem.isHandled : TimelineItem → Bool
  | .other _ => false
  | _ => true

end GraphQL

/-- The per-event body of `parseGraphQLTimelineEvents` (utils.ts:712): the
switch on `convertGraphQLEventType(event.__typename)`. Each of the six
handled kinds pushes one canonical record; `Labeled`, `Milestoned` and
`Other` have no case, so the item produces nothing. -/
def normalizeTimelineItem : GraphQL.TimelineItem → Option Common.TimelineEvent
  | .issueComment c =>
    some (Common.TimelineEvent.commented
      { htmlUrl := c.url
        body := c.body
        bodyHTML := c.bodyHTML
        user := parseAuthor c.author
        canEdit := c.viewerCanUpdate
        canDelete := c.viewerCanDelete
        id := c.databaseId
        graphNodeId := c.id
        createdAt := c.createdAt })
  | .review r =>
    some (Common.TimelineEvent.reviewed
      { comments := []
        submittedAt := r.submittedAt
        body := r.body
        bodyHTML := r.bodyHTML
        htmlUrl := r.url
        user := parseAuthor r.author
        authorAssociation := r.authorAssociation
        state := r.state
        id := r.databaseId })
  | .commit c =>
    some (Common.TimelineEvent.committed
      { id := c.id
        sha := c.commit.oid
        author :=
          match c.commit.author.user with
          | some u => parseAuthor (some u)
          | none =>
            parseAuthor (some
              { login := c.commit.author.name
                url := ""
                avatarUrl := c.commit.author.avatarUrl
                email := c.commit.author.email })
        htmlUrl := c.url
        message := c.commit.message
        authoredDate := c.commit.authoredDate })
  | .mergedEvent m =>
    some (Common.TimelineEvent.merged
      { id := m.id
        user := parseAuthor m.actor
        createdAt := m.createdAt
        mergeRef := m.mergeRef.name
        sha := m.commit.oid
        commitUrl := m.commit.commitUrl
        url := m.url
        graphNodeId := m.id })
  | .assignedEvent a =>
    some (Common.TimelineEvent.assigned
      { id := a.id
        user := parseAuthor a.user
        actor := parseAuthor a.actor })
  | .headRefDeletedEvent h =>
    some (Common.TimelineEvent.headRefDeleted
      { id := h.id
        actor := parseAuthor h.actor
        createdAt := h.createdAt
        headRef := h.headRefName })
  | .other _ => none

/-- Function `parseGraphQLTimelineEvents` (utils.ts:712): normalize the raw items in
order, pushing one canonical event per handled item. -/
def parseGraphQLTimelineEvents (events : List GraphQL.TimelineItem) :
    List Common.TimelineEvent :=
  events.filterMap normalizeTimelineItem

namespace GraphQL

/-- Pagination wrapper for a review's nested comment list. -/
structure ReviewCommentsConnection where
  nodes : List ReviewComment
deriving DecidableEq, Repr

/-- Raw submitted-review payload (`GraphQL.SubmittedReview`). -/
structure SubmittedReview where
  comments : ReviewCommentsConnection
  submittedAt : String
  body : String
  bodyHTML : String
  url : String
  author : Option IAccount
  authorAssociation : String
  state : String
  databaseId : Int
deriving DecidableEq, Repr

end GraphQL

/-- JS truthiness of an optional number: `undefined`/`null` and `0` are
falsy. -/
def jsTruthyOptInt : Option Int → Bool
  | none => false
  | some n => n != 0

/-- Function `parseGraphQLReviewEvent` (utils.ts:697): normalize a submitted review;
its comments are the normalized nested comments (with `isResolved = false`)
kept when `!c.inReplyToId` holds. -/
def parseGraphQLReviewEvent (review : GraphQL.SubmittedReview) :
    Common.ReviewEvent :=
  { comments :=
      (review.comments.nodes.map (fun c => parseGraphQLComment c false)).filter
        (fun c => !(jsTruthyOptInt c.inReplyToId))
    submittedAt := review.submittedAt
    body := review.body
    bodyHTML := review.bodyHTML
    htmlUrl := review.url
    user := parseAuthor review.author
    authorAssociation := review.authorAssociation
    state := review.state
    id := review.databaseId }

/-- A concrete raw review comment whose reply target has database id `0`. -/
def zeroReplyRawComment : GraphQL.ReviewComment :=
  { ghostRawComment with
    id := "RC_2"
    databaseId := 8
    replyTo := some { databaseId := 0 } }

/-- A concrete submitted review containing only `zeroReplyRawComment`. -/
def zeroReplyReview : GraphQL.SubmittedReview :=
  { comments := { nodes := [zeroReplyRawComment] }
    submittedAt := "2024-01-02T00:00:00Z"
    body := ""
    bodyHTML := ""
    url := "https://example.test/r/5"
    author := none
    authorAssociation := "NONE"
    state := "COMMENTED"
    databaseId := 5 }

/-- Raw mergeability union (`'UNKNOWN' | 'MERGEABLE' | 'CONFLICTING'`). -/
inductive RawMergeability where
  | UNKNOWN
  | MERGEABLE
  | CONFLICTING
deriving DecidableEq, Repr, Fintype

/-- Raw merge-state-status union. -/
inductive MergeStateStatus where
  | BEHIND
  | BLOCKED
  | CLEAN
  | DIRTY
  | HAS_HOOKS
  | UNKNOWN
  | UNSTABLE
deriving DecidableEq, Repr, Fintype

/-- Canonical mergeability enumeration (`PullRequestMergeability`). -/
inductive PullRequestMergeability where
  | NotMergeable
  | Mergeable
  | Conflict
  | Unknown
  | Behind
deriving DecidableEq, Repr

/-- Function `parseMergeability` (utils.ts:557): base mapping from mergeability, then
overridden by `BLOCKED`/`BEHIND` status unless the base mapping was
`Conflict`. -/
def parseMergeability (mergeability : RawMergeability)
    (mergeStateStatus : MergeStateStatus) : PullRequestMergeability :=
  let parsed :=
    match mergeability with
    | RawMergeability.UNKNOWN => PullRequestMergeability.Unknown
    | RawMergeability.MERGEABLE => PullRequestMergeability.Mergeable
    | RawMergeability.CONFLICTING => PullRequestMergeability.Conflict
  if parsed ≠ PullRequestMergeability.Conflict then
    if mergeStateStatus = MergeStateStatus.BLOCKED then
      PullRequestMergeability.NotMergeable
    else if mergeStateStatus = MergeStateStatus.BEHIND then
      PullRequestMergeability.Behind
    else parsed
  else parsed

/-- Repository info carried by a canonical ref (§3). -/
structure RefRepo where
  cloneUrl : String
  isInOrganization : Bool
  owner : String
  name : String
deriving DecidableEq, Repr

/-- Canonical branch ref (`GitHubRef`, from `common/githubRef`; §3): label,
branch name, sha and repository info. Only `sha` is read by the
commit-regrouping pass. -/
structure GitHubRef where
  label : String
  ref : String
  sha : String
  repo : RefRepo
deriving DecidableEq, Repr

/-- The first scan condition of the regrouping loop: a `Committed` event
whose sha equals the captured review-commit sha. -/
def isCommittedWithSha (e : Common.TimelineEvent) (sha : String) : Bool :=
  match e with
  | Common.TimelineEvent.committed c => c.sha == sha
  | _ => false

/-- Whether an event is a `Committed` event. -/
def isCommittedEvent : Common.TimelineEvent → Bool
  | Common.TimelineEvent.committed _ => true
  | _ => false

/-- Whether an event is a `Reviewed` event authored by the given login. -/
def isReviewedByUser (e : Common.TimelineEvent) (login : String) : Bool :=
  match e with
  | Common.TimelineEvent.reviewed r => r.user.login == login
  | _ => false

/-- The scan loop of `insertNewCommitsSinceReview` (utils.ts:1054): the index
runs from `timelineEvents.length - 1` down to `1` over the array as mutated
so far; `lastIdx` is the recorded insertion point (initially the last index),
`flag` the "committed during review" flag, and `buffer` the displaced
commits. On finding the commit with the captured sha, the synthetic marker is
prepended to the buffer and the buffer is spliced in after `lastIdx`;
reaching index `0` ends the loop with whatever the array holds then. -/
def insertLoop (oid currentUser : String) :
    Nat → Nat → Bool → List Common.TimelineEvent → List Common.TimelineEvent →
    List Common.TimelineEvent
  | 0, _, _, _, events => events
  | i + 1, lastIdx, flag, buffer, events =>
    match events[i + 1]? with
    | none => insertLoop oid currentUser i lastIdx flag buffer events
    | some ev =>
      if isCommittedWithSha ev oid then
        let buf := Common.TimelineEvent.newCommitsSinceReview oid :: buffer
        events.take (lastIdx + 1) ++ buf ++ events.drop (lastIdx + 1)
      else if flag && isCommittedEvent ev then
        insertLoop oid currentUser i lastIdx flag (ev :: buffer)
          (events.eraseIdx (i + 1))
      else if !flag && isReviewedByUser ev currentUser then
        insertLoop oid currentUser i (i + 1) true buffer events
      else
        insertLoop oid currentUser i lastIdx flag buffer events

/-- Function `insertNewCommitsSinceReview` (utils.ts:1043), modelled as a pure
function returning the timeline after the in-place mutation. The guard
`latestReviewCommitOid && head && head.sha !== latestReviewCommitOid` is
modelled with JS string falsiness spelled out (`""` is falsy). -/
def insertNewCommitsSinceReview (timelineEvents : List Common.TimelineEvent)
    (latestReviewCommitOid : Option String) (currentUser : String)
    (head : Option GitHubRef) : List Common.TimelineEvent :=
  match latestReviewCommitOid, head with
  | some oid, some h =>
    if oid ≠ "" ∧ h.sha ≠ oid then
      insertLoop oid currentUser (timelineEvents.length - 1)
        (timelineEvents.length - 1) false [] timelineEvents
    else timelineEvents
  | _, _ => timelineEvents

/-- The current user of the C2 scenario. -/
def acctU : IAccount := { login := "U", url := "", avatarUrl := none, email := none }

/-- The `Reviewed(by=U)` event at index 0 of the C2 scenario. -/
def reviewByU : Common.ReviewEvent :=
  { comments := []
    submittedAt := "t0"
    body := ""
    bodyHTML := ""
    htmlUrl := ""
    user := acctU
    authorAssociation := "MEMBER"
    state := "APPROVED"
    id := 1 }

/-- The `Committed(sha=X)` event at index 1 of the C2 scenario. -/
def commitX : Common.CommitEvent :=
  { id := "c1", sha := "X", author := acctU, htmlUrl := "", message := "mx",
    authoredDate := "t1" }

/-- The `Committed(sha=Y)` event at index 2 of the C2 scenario. -/
def commitY : Common.CommitEvent :=
  { id := "c2", sha := "Y", author := acctU, htmlUrl := "", message := "my",
    authoredDate := "t2" }

/-- The C2 timeline `[Reviewed(by=U), Committed(X), Committed(Y)]`. -/
def regroupTimeline : List Common.TimelineEvent :=
  [Common.TimelineEvent.reviewed reviewByU,
   Common.TimelineEvent.committed commitX,
   Common.TimelineEvent.committed commitY]

/-- A live head whose sha differs from the captured review-commit sha `X`. -/
def liveHead : GitHubRef :=
  { label := "o:b", ref := "b", sha := "Z",
    repo := { cloneUrl := "https://example.test/o/r.git",
              isInOrganization := false, owner := "o", name := "b" } }

/-- Canonical team record (`ITeam`); per §3 its identity key and display
label are its `name`. -/
structure ITeam where
  name : String
deriving DecidableEq, Repr

/-- A reviewer is an account or a team (§3: both satisfy the reviewer
capability). -/
inductive Reviewer where
  | account (a : IAccount)
  | team (t : ITeam)
deriving DecidableEq, Repr

/-- Modelled from the spec: `reviewerId` is imported from
`github/interface.ts`, which is not among the provided sources; per §3/§4.5
the identity key is `login` for accounts and `name` for teams. -/
def reviewerId : Reviewer → String
  | Reviewer.account a => a.login
  | Reviewer.team t => t.name

/-- Modelled from the spec: `reviewerLabel` is imported from
`github/interface.ts`, which is not among the provided sources; per §3 the
display label of an account is its `login`, of a team its `name`. -/
def reviewerLabel : Reviewer → String
  | Reviewer.account a => a.login
  | Reviewer.team t => t.name

/-- One reviewer-state entry (`ReviewState`). -/
structure ReviewState where
  reviewer : Reviewer
  state : String
deriving DecidableEq, Repr

/-- The identity keys of a reviewer-state list, in order. -/
def reviewersIds (l : List ReviewState) : List String :=
  l.map (fun s => reviewerId s.reviewer)

/-- JS `<` on strings: lexicographic comparison by character code. -/
def jsStrLtChars : List Char → List Char → Bool
  | [], [] => false
  | [], _ :: _ => true
  | _ :: _, [] => false
  | a :: as, b :: bs =>
    if a.val < b.val then true
    else if b.val < a.val then false
    else jsStrLtChars as bs

/-- ASCII lowercase of one character (the fragment of JS `toLowerCase`
relevant to login/name identifiers). -/
def jsToLowerChar (c : Char) : Char :=
  if 65 ≤ c.toNat ∧ c.toNat ≤ 90 then Char.ofNat (c.toNat + 32) else c

/-- JS `a.toLowerCase() < b.toLowerCase()` on strings, applied to the
characters. -/
def jsLowerLt (a b : String) : Bool :=
  jsStrLtChars (a.data.map jsToLowerChar) (b.data.map jsToLowerChar)

/-- The sort comparator of `parseReviewers` (utils.ts:1028): non-`REQUESTED`
entries before `REQUESTED` ones, then case-insensitive label order
(`toLowerCase` modelled on its ASCII fragment); the comparator never
returns 0. -/
def reviewerCompare (a b : ReviewState) : Int :=
  if a.state == "REQUESTED" && !(b.state == "REQUESTED") then 1
  else if b.state == "REQUESTED" && !(a.state == "REQUESTED") then -1
  else if jsLowerLt (reviewerLabel a.reviewer)
      (reviewerLabel b.reviewer) then -1
  else 1

/-- The ordering relation induced by `reviewerCompare`, as used by a stable
JS `Array.prototype.sort` (an element goes before another when the
comparator is ≤ 0). -/
def reviewerSortRel (a b : ReviewState) : Prop := reviewerCompare a b ≤ 0

instance : DecidableRel reviewerSortRel :=
  fun a b => inferInstanceAs (Decidable (reviewerCompare a b ≤ 0))

/-- Extract the payload of a `Reviewed` timeline event (the type guard of
utils.ts:997). -/
def getReviewEvent : Common.TimelineEvent → Option Common.ReviewEvent
  | Common.TimelineEvent.reviewed r => some r
  | _ => none

/-- One step of the newest-first review scan (utils.ts:1004): a reviewer
already seen is skipped; otherwise it is marked seen and one entry with this
(most recent non-pending) state is appended. -/
def reviewStep (acc : List String × List ReviewState)
    (r : Common.ReviewEvent) : List String × List ReviewState :=
  if r.user.login ∈ acc.1 then acc
  else (r.user.login :: acc.1,
        acc.2 ++ [{ reviewer := Reviewer.account r.user, state := r.state }])

/-- The review-scan prefix of `parseReviewers` (utils.ts:997–1013): filter
the `Reviewed` events, drop `PENDING` ones, and scan newest-first starting
from the seen-set pre-seeded with the author's login. Returns the final
`(seen, reviewers)` pair. -/
def scanReviews (timelineEvents : List Common.TimelineEvent)
    (author : IAccount) : List String × List ReviewState :=
  (((timelineEvents.filterMap getReviewEvent).filter
      (fun r => r.state != "PENDING")).reverse).foldl
    reviewStep ([author.login], [])

/-- Replace the state of the first entry with the given identity by
`REQUESTED`; `none` models the `TypeError` thrown by the source's non-null
assertion `reviewer!.state = 'REQUESTED'` (utils.ts:1023) when no entry
matches. -/
def setFirstRequested (id : String) :
    List ReviewState → Option (List ReviewState)
  | [] => none
  | r :: rest =>
    if reviewerId r.reviewer = id then
      some ({ r with state := "REQUESTED" } :: rest)
    else (setFirstRequested id rest).map (fun l => r :: l)

/-- One step of the requested-reviewer pass (utils.ts:1015): an unseen
request appends a `REQUESTED` entry (without marking it seen); a seen
request overwrites the first matching entry's state, crashing (`none`) when
no entry matches. -/
def requestStep (seen : List String) (acc : Option (List ReviewState))
    (request : Reviewer) : Option (List ReviewState) :=
  acc.bind (fun revs =>
    if reviewerId request ∈ seen then
      setFirstRequested (reviewerId request) revs
    else some (revs ++ [{ reviewer := request, state := "REQUESTED" }]))

/-- Function `parseReviewers` (utils.ts:992): review scan, requested-reviewer pass,
then the comparator sort (modelled as a stable insertion sort over
`reviewerSortRel`). `none` models the `TypeError` of the non-null
assertion. -/
def parseReviewers (requestedReviewers : List Reviewer)
    (timelineEvents : List Common.TimelineEvent) (author : IAccount) :
    Option (List ReviewState) :=
  (requestedReviewers.foldl
      (requestStep (scanReviews timelineEvents author).1)
      (some (scanReviews timelineEvents author).2)).map
    (List.insertionSort reviewerSortRel)

/-- Reviewer account `A` of the C4 scenario. -/
def acctA : IAccount := { login := "A", url := "", avatarUrl := none, email := none }

/-- Reviewer account `B` of the C4 scenario. -/
def acctB : IAccount := { login := "B", url := "", avatarUrl := none, email := none }

/-- Author account `C` of the C4 scenario. -/
def acctC : IAccount := { login := "C", url := "", avatarUrl := none, email := none }

/-- A minimal `Reviewed` timeline event by the given user with the given
state. -/
def mkReview (u : IAccount) (st : String) (n : Int) : Common.TimelineEvent :=
  Common.TimelineEvent.reviewed
    { comments := []
      submittedAt := ""
      body := ""
      bodyHTML := ""
      htmlUrl := ""
      user := u
      authorAssociation := ""
      state := st
      id := n }

/-- The chronological C4 timeline
`[B:APPROVED, A:CHANGES_REQUESTED, B:COMMENTED]`. -/
def c4Timeline : List Common.TimelineEvent :=
  [mkReview acctB "APPROVED" 10,
   mkReview acctA "CHANGES_REQUESTED" 11,
   mkReview acctB "COMMENTED" 12]

/-- The invariant of the newest-first review scan: the author is seen, the
author never has an entry, entry identities are distinct, every seen login is
the author or has an entry, and every entry identity is seen. -/
def scanInv (a : String) (acc : List String × List ReviewState) : Prop :=
  a ∈ acc.1 ∧
  a ∉ reviewersIds acc.2 ∧
  (reviewersIds acc.2).Nodup ∧
  (∀ x ∈ acc.1, x = a ∨ x ∈ reviewersIds acc.2) ∧
  (∀ x ∈ reviewersIds acc.2, x ∈ acc.1)

/-- Claim C7: `convertGraphQLEventType` never fails: each known discriminator
maps to its corresponding canonical kind, and every string outside the known
set maps to `Other`. -/
theorem convertGraphQLEventType_total :
    (convertGraphQLEventType "PullRequestCommit" = Common.EventType.Committed ∧
     convertGraphQLEventType "LabeledEvent" = Common.EventType.Labeled ∧
     convertGraphQLEventType "MilestonedEvent" = Common.EventType.Milestoned ∧
     convertGraphQLEventType "AssignedEvent" = Common.EventType.Assigned ∧
     convertGraphQLEventType "HeadRefDeletedEvent" = Common.EventType.HeadRefDeleted ∧
     convertGraphQLEventType "IssueComment" = Common.EventType.Commented ∧
     convertGraphQLEventType "PullRequestReview" = Common.EventType.Reviewed ∧
     convertGraphQLEventType "MergedEvent" = Common.EventType.Merged) ∧
    ∀ text : String, text ∉ knownDiscriminators →
      convertGraphQLEventType text = Common.EventType.Other := by
  refine ⟨⟨rfl, rfl, rfl, rfl, rfl, rfl, rfl, rfl⟩, ?_⟩
  intro text htext
  simp only [knownDiscriminators, List.mem_cons, List.not_mem_nil, or_false] at htext
  push_neg at htext
  obtain ⟨h1, h2, h3, h4, h5, h6, h7, h8⟩ := htext
  simp [convertGraphQLEventType, h1, h2, h3, h4, h5, h6, h7, h8]

/-- Witness for C7 at the concrete unknown discriminator
`"ReadyForReviewEvent"`. -/
theorem convertGraphQLEventType_total_witness :
    "ReadyForReviewEvent" ∉ knownDiscriminators ∧
      convertGraphQLEventType "ReadyForReviewEvent" = Common.EventType.Other :=
  ⟨by decide, convertGraphQLEventType_total.2 "ReadyForReviewEvent" (by decide)⟩

/-- Claim C3, counterexample: at a concrete raw comment with an absent author,
`parseGraphQLComment` does *not* produce the ghost-sentinel user — the
normalized `user` field is left undefined, so the claimed
`user.login = "" ∧ user.url = ""` is unsatisfiable. -/
theorem parseGraphQLComment_ghost_refuted :
    ¬ ∃ u : IAccount, (parseGraphQLComment ghostRawComment false).user = some u ∧
      u.login = "" ∧ u.url = "" := by
  rintro ⟨u, hu, -, -⟩
  have hnone : (parseGraphQLComment ghostRawComment false).user = none := rfl
  rw [hnone] at hu
  exact Option.noConfusion hu

/-- Claim C3, amended: for every raw comment whose author is absent,
`parseGraphQLComment` leaves the normalized `user` undefined (`none`); the
ghost sentinel `{login: "", url: ""}` is what `parseAuthor` yields on an
absent author, but `parseGraphQLComment` invokes `parseAuthor` only on a
present author. -/
theorem parseGraphQLComment_absent_author (c : GraphQL.ReviewComment) (b : Bool)
    (h : c.author = none) :
    (parseGraphQLComment c b).user = none ∧
      (parseAuthor none).login = "" ∧ (parseAuthor none).url = "" := by
  refine ⟨?_, rfl, rfl⟩
  simp [parseGraphQLComment, h]

/-- Witness for the amended C3 at a concrete authorless comment. -/
theorem parseGraphQLComment_absent_author_witness :
    ghostRawComment.author = none ∧
      ((parseGraphQLComment ghostRawComment false).user = none ∧
        (parseAuthor none).login = "" ∧ (parseAuthor none).url = "") :=
  ⟨rfl, parseGraphQLComment_absent_author ghostRawComment false rfl⟩

/-- Claim C1, counterexample: a concrete event whose discriminator classifies
to `Other` is dropped, not emitted: the output is empty, so output length
differs from input length. -/
theorem parseGraphQLTimelineEvents_drops_other :
    convertGraphQLEventType
        (GraphQL.TimelineItem.other "UnknownFutureEvent").typename =
      Common.EventType.Other ∧
    parseGraphQLTimelineEvents [GraphQL.TimelineItem.other "UnknownFutureEvent"]
      = [] ∧
    (parseGraphQLTimelineEvents
        [GraphQL.TimelineItem.other "UnknownFutureEvent"]).length ≠
      [GraphQL.TimelineItem.other "UnknownFutureEvent"].length :=
  ⟨rfl, rfl, by decide⟩

/-- Claim C1, amended: `parseGraphQLTimelineEvents` emits one canonical event,
in input order, for every input item of the six handled shapes, carrying
exactly the kind assigned by `convertGraphQLEventType`; items classifying to
`Other` (or `Labeled`/`Milestoned`) are dropped, so the output length equals
the number of handled items, not the input length. -/
theorem parseGraphQLTimelineEvents_order (events : List GraphQL.TimelineItem) :
    (parseGraphQLTimelineEvents events).map Common.TimelineEvent.event =
      (events.filter GraphQL.TimelineItem.isHandled).map
        (fun e => convertGraphQLEventType e.typename) := by
  induction events with
  | nil => rfl
  | cons e rest ih =>
    cases e <;>
      first
      | exact ih
      | exact congrArg (List.cons _) ih

/-- Claim C10, counterexample: a comment whose reply-target database id is `0`
has `inReplyToId` set (to `some 0`), yet the source's JS-falsiness filter
`!c.inReplyToId` keeps it, so the emitted comments are not exactly those with
`inReplyToId` unset. -/
theorem parseGraphQLReviewEvent_reply_filter_refuted :
    (parseGraphQLReviewEvent zeroReplyReview).comments.length = 1 ∧
    ((zeroReplyReview.comments.nodes.map
        (fun c => parseGraphQLComment c false)).filter
      (fun c => c.inReplyToId == none)).length = 0 ∧
    (parseGraphQLReviewEvent zeroReplyReview).comments ≠
      (zeroReplyReview.comments.nodes.map
          (fun c => parseGraphQLComment c false)).filter
        (fun c => c.inReplyToId == none) := by
  refine ⟨rfl, rfl, ?_⟩
  intro h
  have hlen := congrArg List.length h
  exact Nat.one_ne_zero hlen

/-- Claim C10, amended: the review event's comments are exactly the normalized
nested comments whose `inReplyToId` is unset *or zero* (JS falsiness of the
numeric id), in input order, each constructed with `isResolved = false`. -/
theorem parseGraphQLReviewEvent_comments (review : GraphQL.SubmittedReview) :
    (parseGraphQLReviewEvent review).comments =
      (review.comments.nodes.map (fun c => parseGraphQLComment c false)).filter
        (fun c => c.inReplyToId == none || c.inReplyToId == some 0) ∧
    ∀ c ∈ (parseGraphQLReviewEvent review).comments, c.isResolved = false := by
  have hdef : (parseGraphQLReviewEvent review).comments =
      (review.comments.nodes.map (fun c => parseGraphQLComment c false)).filter
        (fun c => !(jsTruthyOptInt c.inReplyToId)) := rfl
  constructor
  · rw [hdef]
    apply List.filter_congr
    intro c _
    cases hco : c.inReplyToId with
    | none => simp [jsTruthyOptInt]
    | some n =>
      by_cases hn : n = 0
      · subst hn; rfl
      · simp [jsTruthyOptInt, hn, bne]
  · intro c hc
    rw [hdef] at hc
    simp only [List.mem_filter, List.mem_map] at hc
    obtain ⟨⟨a, -, rfl⟩, -⟩ := hc
    rfl

/-- Witness for the amended C10 at the concrete review `zeroReplyReview`. -/
theorem parseGraphQLReviewEvent_comments_witness :
    (parseGraphQLReviewEvent zeroReplyReview).comments =
      (zeroReplyReview.comments.nodes.map
          (fun c => parseGraphQLComment c false)).filter
        (fun c => c.inReplyToId == none || c.inReplyToId == some 0) ∧
    (parseGraphQLComment zeroReplyRawComment false).isResolved = false :=
  ⟨(parseGraphQLReviewEvent_comments zeroReplyReview).1,
   (parseGraphQLReviewEvent_comments zeroReplyReview).2
     (parseGraphQLComment zeroReplyRawComment false)
     (List.mem_singleton.mpr rfl)⟩

/-- Claim C8: `parseMergeability` applies the base mapping, then the
`BLOCKED → NotMergeable` and `BEHIND → Behind` overrides except when the base
mapping is `Conflict`; in particular `(CONFLICTING, BLOCKED) → Conflict`,
`(MERGEABLE, BEHIND) → Behind`, `(MERGEABLE, CLEAN) → Mergeable`. -/
theorem parseMergeability_spec :
    (∀ s, parseMergeability RawMergeability.CONFLICTING s =
      PullRequestMergeability.Conflict) ∧
    (∀ m, parseMergeability m MergeStateStatus.BLOCKED =
      if m = RawMergeability.CONFLICTING then PullRequestMergeability.Conflict
      else PullRequestMergeability.NotMergeable) ∧
    (∀ m, parseMergeability m MergeStateStatus.BEHIND =
      if m = RawMergeability.CONFLICTING then PullRequestMergeability.Conflict
      else PullRequestMergeability.Behind) ∧
    (∀ m s, s ≠ MergeStateStatus.BLOCKED → s ≠ MergeStateStatus.BEHIND →
      parseMergeability m s =
        match m with
        | RawMergeability.UNKNOWN => PullRequestMergeability.Unknown
        | RawMergeability.MERGEABLE => PullRequestMergeability.Mergeable
        | RawMergeability.CONFLICTING => PullRequestMergeability.Conflict) ∧
    parseMergeability RawMergeability.CONFLICTING MergeStateStatus.BLOCKED =
      PullRequestMergeability.Conflict ∧
    parseMergeability RawMergeability.MERGEABLE MergeStateStatus.BEHIND =
      PullRequestMergeability.Behind ∧
    parseMergeability RawMergeability.MERGEABLE MergeStateStatus.CLEAN =
      PullRequestMergeability.Mergeable := by
  decide

/-- Witness for C8 at the concrete pair `(MERGEABLE, CLEAN)`. -/
theorem parseMergeability_spec_witness :
    (MergeStateStatus.CLEAN ≠ MergeStateStatus.BLOCKED ∧
     MergeStateStatus.CLEAN ≠ MergeStateStatus.BEHIND) ∧
    parseMergeability RawMergeability.MERGEABLE MergeStateStatus.CLEAN =
      PullRequestMergeability.Mergeable :=
  ⟨⟨by decide, by decide⟩,
   parseMergeability_spec.2.2.2.1 RawMergeability.MERGEABLE
     MergeStateStatus.CLEAN (by decide) (by decide)⟩

/-- Claim C2, counterexample: on `[Reviewed(U), Committed(X), Committed(Y)]`
with captured sha `X`, user `U` and head sha `Z ≠ X`, the pass does *not*
place the marker and commits right after the review event. -/
theorem insertNewCommitsSinceReview_claim_refuted :
    insertNewCommitsSinceReview regroupTimeline (some "X") "U" (some liveHead) ≠
      [Common.TimelineEvent.reviewed reviewByU,
       Common.TimelineEvent.newCommitsSinceReview "X",
       Common.TimelineEvent.committed commitX,
       Common.TimelineEvent.committed commitY] := by
  decide

/-- Claim C2, amended: on that input the newest-first scan (which excludes
index 0) reaches `Committed(X)` before any `Reviewed` event by `U`, so the
insertion point stays at the timeline end: all three events keep their
positions and the synthetic `NewCommitsSinceReview` marker with id `X` is
appended at the end. -/
theorem insertNewCommitsSinceReview_actual :
    insertNewCommitsSinceReview regroupTimeline (some "X") "U" (some liveHead) =
      [Common.TimelineEvent.reviewed reviewByU,
       Common.TimelineEvent.committed commitX,
       Common.TimelineEvent.committed commitY,
       Common.TimelineEvent.newCommitsSinceReview "X"] := by
  decide

/-- Claim C9: `insertNewCommitsSinceReview` leaves the timeline unchanged
whenever the captured review-commit sha is undefined, or the head ref is
deleted, or the live head sha equals the captured sha. -/
theorem insertNewCommitsSinceReview_noop
    (timelineEvents : List Common.TimelineEvent)
    (latestReviewCommitOid : Option String) (currentUser : String)
    (head : Option GitHubRef)
    (h : latestReviewCommitOid = none ∨ head = none ∨
      ∃ hd s, head = some hd ∧ latestReviewCommitOid = some s ∧ hd.sha = s) :
    insertNewCommitsSinceReview timelineEvents latestReviewCommitOid
      currentUser head = timelineEvents := by
  rcases h with h | h | ⟨hd, s, hh, ho, hs⟩
  · subst h; cases head <;> rfl
  · subst h; cases latestReviewCommitOid <;> rfl
  · subst hh; subst ho
    simp [insertNewCommitsSinceReview, hs]

/-- Witness for C9 at a concrete no-op input (undefined captured sha). -/
theorem insertNewCommitsSinceReview_noop_witness :
    insertNewCommitsSinceReview regroupTimeline none "U" none =
      regroupTimeline :=
  insertNewCommitsSinceReview_noop regroupTimeline none "U" none (Or.inl rfl)

/-- Claim C4: with requested reviewers `[A, B]`, reviews
`[B:APPROVED, A:CHANGES_REQUESTED, B:COMMENTED]` and author `C`,
`parseReviewers` returns exactly `A→REQUESTED, B→REQUESTED`, alphabetically
by label. -/
theorem parseReviewers_scenario :
    parseReviewers [Reviewer.account acctA, Reviewer.account acctB]
        c4Timeline acctC =
      some [{ reviewer := Reviewer.account acctA, state := "REQUESTED" },
            { reviewer := Reviewer.account acctB, state := "REQUESTED" }] := by
  decide

/-- Claim C5, counterexample: requesting a reviewer whose identity equals the
author's login makes `parseReviewers` throw (the non-null assertion on
`find` fails): the author's login is pre-seeded as seen but never has an
entry. -/
theorem parseReviewers_error_on_author :
    parseReviewers [Reviewer.account acctC] [] acctC = none := by
  decide

/-- Claim C6, counterexample: a duplicated requested reviewer yields two
entries with the same identity (the requested pass never marks requests as
seen), refuting at-most-one-entry-per-identity. -/
theorem parseReviewers_unique_refuted :
    parseReviewers [Reviewer.account acctA, Reviewer.account acctA] [] acctC =
      some [{ reviewer := Reviewer.account acctA, state := "REQUESTED" },
            { reviewer := Reviewer.account acctA, state := "REQUESTED" }] ∧
    ¬ (reviewersIds
        [{ reviewer := Reviewer.account acctA, state := "REQUESTED" },
         { reviewer := Reviewer.account acctA, state := "REQUESTED" }]).Nodup := by
  exact ⟨by decide, by decide⟩

theorem reviewersIds_nil : reviewersIds [] = [] := rfl

theorem reviewersIds_cons (r : ReviewState) (l : List ReviewState) :
    reviewersIds (r :: l) = reviewerId r.reviewer :: reviewersIds l := rfl

theorem reviewersIds_append (l₁ l₂ : List ReviewState) :
    reviewersIds (l₁ ++ l₂) = reviewersIds l₁ ++ reviewersIds l₂ := by
  simp [reviewersIds]

theorem foldl_requestStep_none (seen : List String) (reqs : List Reviewer) :
    reqs.foldl (requestStep seen) none = none := by
  induction reqs with
  | nil => rfl
  | cons r rs ih => simpa [requestStep] using ih

theorem setFirstRequested_none_iff (id : String) :
    ∀ l : List ReviewState,
      setFirstRequested id l = none ↔ id ∉ reviewersIds l
  | [] => by simp [setFirstRequested, reviewersIds]
  | r :: rest => by
    by_cases h : reviewerId r.reviewer = id
    · simp [setFirstRequested, h, reviewersIds_cons]
    · have h' : ¬(id = reviewerId r.reviewer) := fun he => h he.symm
      rw [show setFirstRequested id (r :: rest) =
            (setFirstRequested id rest).map (fun l => r :: l) from by
          simp [setFirstRequested, h],
        Option.map_eq_none', setFirstRequested_none_iff id rest,
        reviewersIds_cons]
      simp [h']

theorem setFirstRequested_ids (id : String) :
    ∀ (l l' : List ReviewState), setFirstRequested id l = some l' →
      reviewersIds l' = reviewersIds l
  | [], l', h => by simp [setFirstRequested] at h
  | r :: rest, l', h => by
    by_cases hr : reviewerId r.reviewer = id
    · rw [show setFirstRequested id (r :: rest) =
          some ({ r with state := "REQUESTED" } :: rest) from by
        simp [setFirstRequested, hr]] at h
      obtain rfl := Option.some.inj h
      rfl
    · rw [show setFirstRequested id (r :: rest) =
          (setFirstRequested id rest).map (fun l => r :: l) from by
        simp [setFirstRequested, hr]] at h
      obtain ⟨rest', hrest, rfl⟩ := Option.map_eq_some'.mp h
      rw [reviewersIds_cons, reviewersIds_cons,
        setFirstRequested_ids id rest rest' hrest]

theorem reviewStep_inv (a : String) (acc : List String × List ReviewState)
    (r : Common.ReviewEvent) (h : scanInv a acc) :
    scanInv a (reviewStep acc r) := by
  obtain ⟨h1, h2, h3, h4, h5⟩ := h
  by_cases hmem : r.user.login ∈ acc.1
  · rw [show reviewStep acc r = acc from by simp [reviewStep, hmem]]
    exact ⟨h1, h2, h3, h4, h5⟩
  · rw [show reviewStep acc r =
        (r.user.login :: acc.1,
         acc.2 ++ [{ reviewer := Reviewer.account r.user, state := r.state }])
        from by simp [reviewStep, hmem]]
    refine ⟨List.mem_cons_of_mem _ h1, ?_, ?_, ?_, ?_⟩
    · rw [reviewersIds_append]
      intro hc
      rcases List.mem_append.mp hc with hc | hc
      · exact h2 hc
      · rw [reviewersIds_cons, reviewersIds_nil] at hc
        have ha : a = r.user.login := by simpa using hc
        exact hmem (ha ▸ h1)
    · rw [reviewersIds_append]
      refine List.Nodup.append h3 ?_ ?_
      · rw [reviewersIds_cons, reviewersIds_nil]
        exact List.nodup_singleton _
      · intro x hx hx'
        rw [reviewersIds_cons, reviewersIds_nil] at hx'
        have hxeq : x = r.user.login := by simpa using hx'
        exact hmem (hxeq ▸ h5 x hx)
    · intro x hx
      rcases List.mem_cons.mp hx with rfl | hx'
      · right
        rw [reviewersIds_append]
        refine List.mem_append.mpr (Or.inr ?_)
        rw [reviewersIds_cons, reviewersIds_nil]
        exact List.mem_singleton.mpr rfl
      · rcases h4 x hx' with hxa | hxm
        · exact Or.inl hxa
        · right
          rw [reviewersIds_append]
          exact List.mem_append.mpr (Or.inl hxm)
    · intro x hx
      rw [reviewersIds_append] at hx
      rcases List.mem_append.mp hx with hx | hx
      · exact List.mem_cons_of_mem _ (h5 x hx)
      · rw [reviewersIds_cons, reviewersIds_nil] at hx
        have hxeq : x = r.user.login := by simpa using hx
        exact hxeq ▸ List.mem_cons_self _ _

theorem foldl_reviewStep_inv (a : String) :
    ∀ (l : List Common.ReviewEvent) (acc : List String × List ReviewState),
      scanInv a acc → scanInv a (l.foldl reviewStep acc)
  | [], _, h => h
  | r :: rs, acc, h =>
    foldl_reviewStep_inv a rs (reviewStep acc r) (reviewStep_inv a acc r h)

theorem scanReviews_inv (tl : List Common.TimelineEvent) (author : IAccount) :
    scanInv author.login (scanReviews tl author) := by
  apply foldl_reviewStep_inv
  refine ⟨List.mem_singleton.mpr rfl, ?_, ?_, ?_, ?_⟩
  · rw [reviewersIds_nil]
    exact List.not_mem_nil _
  · rw [reviewersIds_nil]
    exact List.nodup_nil
  · intro x hx
    exact Or.inl (by simpa using hx)
  · intro x hx
    rw [reviewersIds_nil] at hx
    exact absurd hx (List.not_mem_nil _)

theorem foldl_requestStep_isSome (seen : List String) (a : String) :
    ∀ (reqs : List Reviewer) (revs : List ReviewState),
      (∀ x ∈ seen, x = a ∨ x ∈ reviewersIds revs) →
      (∀ r ∈ reqs, reviewerId r ≠ a) →
      ∃ l, reqs.foldl (requestStep seen) (some revs) = some l
  | [], revs, _, _ => ⟨revs, rfl⟩
  | r :: rs, revs, hseen, hreq => by
    rw [List.foldl_cons]
    have hra : reviewerId r ≠ a := hreq r (List.mem_cons_self _ _)
    have hreq' : ∀ r' ∈ rs, reviewerId r' ≠ a :=
      fun r' hr' => hreq r' (List.mem_cons_of_mem _ hr')
    by_cases hmem : reviewerId r ∈ seen
    · have hid : reviewerId r ∈ reviewersIds revs := by
        rcases hseen _ hmem with h | h
        · exact absurd h hra
        · exact h
      have hne : setFirstRequested (reviewerId r) revs ≠ none :=
        fun hc => ((setFirstRequested_none_iff _ _).mp hc) hid
      obtain ⟨revs', hset⟩ := Option.ne_none_iff_exists'.mp hne
      rw [show requestStep seen (some revs) r = some revs' from by
        simp [requestStep, hmem, hset]]
      refine foldl_requestStep_isSome seen a rs revs' ?_ hreq'
      intro x hx
      rcases hseen x hx with h | h
      · exact Or.inl h
      · exact Or.inr (by rw [setFirstRequested_ids _ _ _ hset]; exact h)
    · rw [show requestStep seen (some revs) r =
          some (revs ++ [{ reviewer := r, state := "REQUESTED" }]) from by
        simp [requestStep, hmem]]
      refine foldl_requestStep_isSome seen a rs _ ?_ hreq'
      intro x hx
      rcases hseen x hx with h | h
      · exact Or.inl h
      · right
        rw [reviewersIds_append]
        exact List.mem_append.mpr (Or.inl h)

theorem foldl_requestStep_none_of_author (seen : List String) (a : String)
    (ha : a ∈ seen) :
    ∀ (reqs : List Reviewer) (revs : List ReviewState),
      a ∉ reviewersIds revs →
      (∃ r ∈ reqs, reviewerId r = a) →
      reqs.foldl (requestStep seen) (some revs) = none
  | [], _, _, hex => absurd hex (by simp)
  | r :: rs, revs, hnotin, hex => by
    rw [List.foldl_cons]
    by_cases hra : reviewerId r = a
    · have hmem : reviewerId r ∈ seen := by rw [hra]; exact ha
      have hnone : setFirstRequested (reviewerId r) revs = none := by
        rw [setFirstRequested_none_iff, hra]
        exact hnotin
      rw [show requestStep seen (some revs) r = none from by
        simp [requestStep, hmem, hnone]]
      exact foldl_requestStep_none seen rs
    · have hex' : ∃ r' ∈ rs, reviewerId r' = a := by
        rcases hex with ⟨r', hmem', heq⟩
        rcases List.mem_cons.mp hmem' with heq' | hmem''
        · exact absurd (heq' ▸ heq) hra
        · exact ⟨r', hmem'', heq⟩
      by_cases hmem : reviewerId r ∈ seen
      · cases hset : setFirstRequested (reviewerId r) revs with
        | none =>
          rw [show requestStep seen (some revs) r = none from by
            simp [requestStep, hmem, hset]]
          exact foldl_requestStep_none seen rs
        | some revs' =>
          rw [show requestStep seen (some revs) r = some revs' from by
            simp [requestStep, hmem, hset]]
          exact foldl_requestStep_none_of_author seen a ha rs revs'
            (by rw [setFirstRequested_ids _ _ _ hset]; exact hnotin) hex'
      · rw [show requestStep seen (some revs) r =
            some (revs ++ [{ reviewer := r, state := "REQUESTED" }]) from by
          simp [requestStep, hmem]]
        refine foldl_requestStep_none_of_author seen a ha rs _ ?_ hex'
        rw [reviewersIds_append]
        intro hc
        rcases List.mem_append.mp hc with hc | hc
        · exact hnotin hc
        · rw [reviewersIds_cons, reviewersIds_nil] at hc
          have heq : a = reviewerId r := by simpa using hc
          exact hra heq.symm

theorem foldl_requestStep_author (seen : List String) (a : String)
    (ha : a ∈ seen) :
    ∀ (reqs : List Reviewer) (revs : List ReviewState),
      a ∉ reviewersIds revs →
      ∀ l, reqs.foldl (requestStep seen) (some revs) = some l →
        a ∉ reviewersIds l
  | [], _, hnotin, l, hl => by
    obtain rfl := Option.some.inj hl
    exact hnotin
  | r :: rs, revs, hnotin, l, hl => by
    rw [List.foldl_cons] at hl
    by_cases hmem : reviewerId r ∈ seen
    · cases hset : setFirstRequested (reviewerId r) revs with
      | none =>
        rw [show requestStep seen (some revs) r = none from by
            simp [requestStep, hmem, hset],
          foldl_requestStep_none] at hl
        exact Option.noConfusion hl
      | some revs' =>
        rw [show requestStep seen (some revs) r = some revs' from by
          simp [requestStep, hmem, hset]] at hl
        exact foldl_requestStep_author seen a ha rs revs'
          (by rw [setFirstRequested_ids _ _ _ hset]; exact hnotin) l hl
    · rw [show requestStep seen (some revs) r =
          some (revs ++ [{ reviewer := r, state := "REQUESTED" }]) from by
        simp [requestStep, hmem]] at hl
      refine foldl_requestStep_author seen a ha rs _ ?_ l hl
      rw [reviewersIds_append]
      intro hc
      rcases List.mem_append.mp hc with hc | hc
      · exact hnotin hc
      · rw [reviewersIds_cons, reviewersIds_nil] at hc
        have heq : a = reviewerId r := by simpa using hc
        exact hmem (heq ▸ ha)

theorem foldl_requestStep_nodup (seen : List String) :
    ∀ (reqs : List Reviewer) (revs : List ReviewState)
      (processed : List String),
      (reviewersIds revs).Nodup →
      (∀ x ∈ reviewersIds revs, x ∈ seen ∨ x ∈ processed) →
      (reqs.map reviewerId).Nodup →
      (∀ r ∈ reqs, reviewerId r ∉ processed) →
      ∀ l, reqs.foldl (requestStep seen) (some revs) = some l →
        (reviewersIds l).Nodup
  | [], _, _, hnd, _, _, _, l, hl => by
    obtain rfl := Option.some.inj hl
    exact hnd
  | r :: rs, revs, processed, hnd, hsub, hreqnd, hreqp, l, hl => by
    rw [List.foldl_cons] at hl
    have hrsnd : (rs.map reviewerId).Nodup := (List.nodup_cons.mp hreqnd).2
    have hrnotin : reviewerId r ∉ rs.map reviewerId :=
      (List.nodup_cons.mp hreqnd).1
    have hreqp' : ∀ r' ∈ rs, reviewerId r' ∉ reviewerId r :: processed := by
      intro r' hr' hpc
      rcases List.mem_cons.mp hpc with heq | hp
      · exact hrnotin (heq ▸ List.mem_map_of_mem reviewerId hr')
      · exact hreqp r' (List.mem_cons_of_mem _ hr') hp
    by_cases hmem : reviewerId r ∈ seen
    · cases hset : setFirstRequested (reviewerId r) revs with
      | none =>
        rw [show requestStep seen (some revs) r = none from by
            simp [requestStep, hmem, hset],
          foldl_requestStep_none] at hl
        exact Option.noConfusion hl
      | some revs' =>
        rw [show requestStep seen (some revs) r = some revs' from by
          simp [requestStep, hmem, hset]] at hl
        refine foldl_requestStep_nodup seen rs revs' (reviewerId r :: processed)
          ?_ ?_ hrsnd hreqp' l hl
        · rw [setFirstRequested_ids _ _ _ hset]
          exact hnd
        · intro x hx
          rw [setFirstRequested_ids _ _ _ hset] at hx
          rcases hsub x hx with h | h
          · exact Or.inl h
          · exact Or.inr (List.mem_cons_of_mem _ h)
    · have hnewid : reviewerId r ∉ reviewersIds revs := by
        intro hc
        rcases hsub _ hc with h | h
        · exact hmem h
        · exact hreqp r (List.mem_cons_self _ _) h
      rw [show requestStep seen (some revs) r =
          some (revs ++ [{ reviewer := r, state := "REQUESTED" }]) from by
        simp [requestStep, hmem]] at hl
      refine foldl_requestStep_nodup seen rs _ (reviewerId r :: processed)
        ?_ ?_ hrsnd hreqp' l hl
      · rw [reviewersIds_append]
        refine List.Nodup.append hnd ?_ ?_
        · rw [reviewersIds_cons, reviewersIds_nil]
          exact List.nodup_singleton _
        · intro x hx hx'
          rw [reviewersIds_cons, reviewersIds_nil] at hx'
          have hxeq : x = reviewerId r := by simpa using hx'
          exact hnewid (hxeq ▸ hx)
      · intro x hx
        rw [reviewersIds_append] at hx
        rcases List.mem_append.mp hx with hx | hx
        · rcases hsub x hx with h | h
          · exact Or.inl h
          · exact Or.inr (List.mem_cons_of_mem _ h)
        · rw [reviewersIds_cons, reviewersIds_nil] at hx
          have hxeq : x = reviewerId r := by simpa using hx
          exact Or.inr (hxeq ▸ List.mem_cons_self _ _)

/-- Claim C5, amended: `parseReviewers` returns a list exactly when no
requested reviewer's identity equals the author's login; for a request
matching the author's identity it throws (the author is pre-seeded as seen
but never has an entry, so the non-null assertion on `find` fails). -/
theorem parseReviewers_total_iff (reqs : List Reviewer)
    (tl : List Common.TimelineEvent) (author : IAccount) :
    (parseReviewers reqs tl author).isSome = true ↔
      ∀ r ∈ reqs, reviewerId r ≠ author.login := by
  obtain ⟨h1, h2, h3, h4, h5⟩ := scanReviews_inv tl author
  constructor
  · intro hsome
    by_contra hc
    push_neg at hc
    obtain ⟨r, hr, heq⟩ := hc
    have hnone := foldl_requestStep_none_of_author
      (scanReviews tl author).1 author.login h1 reqs
      (scanReviews tl author).2 h2 ⟨r, hr, heq⟩
    simp only [parseReviewers] at hsome
    rw [hnone] at hsome
    simp at hsome
  · intro hall
    obtain ⟨l, hl⟩ := foldl_requestStep_isSome
      (scanReviews tl author).1 author.login reqs
      (scanReviews tl author).2 h4 hall
    simp only [parseReviewers]
    rw [hl]
    rfl

/-- Witness for the amended C5: a request whose identity differs from the
author's login succeeds. -/
theorem parseReviewers_total_iff_witness :
    (∀ r ∈ [Reviewer.account acctA], reviewerId r ≠ acctC.login) ∧
    (parseReviewers [Reviewer.account acctA] [] acctC).isSome = true :=
  ⟨by decide,
   (parseReviewers_total_iff [Reviewer.account acctA] [] acctC).mpr
     (by decide)⟩

/-- Claim C6, amended: whenever the requested reviewers carry pairwise
distinct identities and `parseReviewers` returns a list, that list has at
most one entry per reviewer identity, and never an entry whose identity
equals the author's login — even when the timeline contains a review by the
author. -/
theorem parseReviewers_unique_no_author (reqs : List Reviewer)
    (tl : List Common.TimelineEvent) (author : IAccount)
    (hdist : (reqs.map reviewerId).Nodup) :
    ∀ l, parseReviewers reqs tl author = some l →
      (reviewersIds l).Nodup ∧
      ∀ s ∈ l, reviewerId s.reviewer ≠ author.login := by
  intro l hl
  obtain ⟨h1, h2, h3, h4, h5⟩ := scanReviews_inv tl author
  simp only [parseReviewers] at hl
  obtain ⟨l₀, hl₀, rfl⟩ := Option.map_eq_some'.mp hl
  have hperm : List.Perm (List.insertionSort reviewerSortRel l₀) l₀ :=
    List.perm_insertionSort reviewerSortRel l₀
  have hpermIds : List.Perm
      (reviewersIds (List.insertionSort reviewerSortRel l₀)) (reviewersIds l₀) :=
    hperm.map _
  have hnd := foldl_requestStep_nodup (scanReviews tl author).1 reqs
    (scanReviews tl author).2 [] h3 (fun x hx => Or.inl (h5 x hx)) hdist
    (by intro r _ hc; exact absurd hc (List.not_mem_nil _)) l₀ hl₀
  have hauth := foldl_requestStep_author (scanReviews tl author).1
    author.login h1 reqs (scanReviews tl author).2 h2 l₀ hl₀
  constructor
  · exact hpermIds.nodup_iff.mpr hnd
  · intro s hs hc
    apply hauth
    rw [← hc]
    exact hpermIds.subset (List.mem_map_of_mem _ hs)

/-- Witness for the amended C6 at requests `[A, B]` with author `C`. -/
theorem parseReviewers_unique_no_author_witness :
    (([Reviewer.account acctA, Reviewer.account acctB].map reviewerId).Nodup) ∧
    ((reviewersIds
        ([{ reviewer := Reviewer.account acctA, state := "REQUESTED" },
          { reviewer := Reviewer.account acctB, state := "REQUESTED" }] :
            List ReviewState)).Nodup ∧
      ∀ s ∈ ([{ reviewer := Reviewer.account acctA, state := "REQUESTED" },
              { reviewer := Reviewer.account acctB, state := "REQUESTED" }] :
            List ReviewState),
        reviewerId s.reviewer ≠ acctC.login) :=
  ⟨by decide,
   parseReviewers_unique_no_author
     [Reviewer.account acctA, Reviewer.account acctB] [] acctC (by decide)
     [{ reviewer := Reviewer.account acctA, state := "REQUESTED" },
      { reviewer := Reviewer.account acctB, state := "REQUESTED" }]
     (by decide)⟩

end PRUtils
